import Mathlib

/-!
Verification of the WPR (Weekly Productivity Report) application.

This file gives a shallow embedding, in Lean 4, of the parts of the Python
source that the specification's claims talk about:

* `src/core/validators.py`  — `InputValidator.validate_tasks`,
  `validate_projects`, `validate_peer_ratings`;
* `src/core/database.py`    — `DatabaseHandler.check_and_handle_duplicates`,
  `save_data`, `update_data`;
* `src/core/ai_hr_analyzer.py` — `_calculate_metrics`,
  `_calculate_collaboration_score`, `_retry_ai_request`,
  `_sanitize_html_content`;
* `src/core/email_handler.py`  — `EmailHandler.format_wpr_email`;
* `src/main.py`             — the submission handler's control flow.

Modelling conventions:

* Python strings are modelled as `List Char` (`Str` below); all character
  level operations (split, strip, replace, numeric parsing) are defined from
  scratch so that they both execute and admit proofs.
* Python `float` arithmetic is modelled by exact rational arithmetic `ℚ`;
  `round(x, n)` is modelled by round-half-to-even at `n` decimal digits,
  which is Python's rounding mode.  `float(s)` is modelled by a parser for
  the decimal/exponent literal forms (which is what the validated inputs
  use); the special forms `inf`/`nan` are not modelled — they would be
  rejected by the `[0, 100]` range checks in the code anyway.
* Python dicts holding a report are modelled by insertion-ordered
  association lists `DataMap` with Python's `dict.__setitem__` semantics.
* Calls to the hosted database are modelled by explicit state passing over a
  table `List Row` plus booleans standing for the outcome of each remote
  call (lookup raising, insert returning data).
-/

/-- Python strings, modelled at character granularity. -/
abbrev Str := List Char

namespace WPR

/-! ### Character-level primitives shared by the validators -/

/-- `text.split('\n')`: split on the newline character.  As in Python,
`"".split('\n') = [""]` and a trailing newline yields a trailing empty
component. -/
def splitLines : Str → List Str
  | [] => [[]]
  | c :: cs =>
    match splitLines cs with
    | [] => [[]]
    | l :: ls => if c = '\n' then [] :: l :: ls else (c :: l) :: ls

/-- `'\n'.join(xs)`: interleave the lines with newline characters. -/
def joinLines : List Str → Str
  | [] => []
  | [x] => x
  | x :: xs => x ++ '\n' :: joinLines xs

/-- The whitespace predicate of Python's `str.strip()` (restricted to the
ASCII whitespace that occurs in the modelled inputs). -/
def isWS (c : Char) : Bool := c.isWhitespace

/-- `s.strip()`: drop whitespace from the front, then from the back. -/
def trimChars (l : Str) : Str :=
  (l.dropWhile isWS).rdropWhile isWS

/-! ### `InputValidator.validate_tasks` (src/core/validators.py lines 13-21) -/

/-- `InputValidator.validate_tasks`: split on newline, strip each line, drop
the lines that are empty after stripping; the empty input yields `[]`. -/
def validate_tasks (tasks : Str) : List Str :=
  if tasks = [] then []
  else ((splitLines tasks).map trimChars).filter (· ≠ [])

/-! Lemmas towards idempotence of task normalization (claim C5). -/

theorem splitLines_ne_nil (t : Str) : splitLines t ≠ [] := by
  cases t with
  | nil => simp [splitLines]
  | cons c cs =>
    rcases h : splitLines cs with _ | ⟨l, ls⟩
    · simp [splitLines, h]
    · simp only [splitLines, h]
      split <;> simp

theorem mem_splitLines_no_newline (t : Str) :
    ∀ l ∈ splitLines t, '\n' ∉ l := by
  induction t with
  | nil =>
    intro l hl
    simp only [splitLines, List.mem_singleton] at hl
    simp [hl]
  | cons c cs ih =>
    intro l hl
    rcases hm : splitLines cs with _ | ⟨m, ms⟩
    · exact absurd hm (splitLines_ne_nil cs)
    · simp only [splitLines, hm] at hl
      by_cases hc : c = '\n'
      · rw [if_pos hc] at hl
        rcases List.mem_cons.mp hl with h | h
        · simp [h]
        · exact ih l (hm ▸ h)
      · rw [if_neg hc] at hl
        rcases List.mem_cons.mp hl with h | h
        · have hmem : '\n' ∉ m := ih m (hm ▸ List.mem_cons_self m ms)
          subst h
          intro hx
          rcases List.mem_cons.mp hx with h' | h'
          · exact hc h'.symm
          · exact hmem h'
        · exact ih l (hm ▸ List.mem_cons_of_mem m h)

theorem splitLines_append_no_newline (x t : Str) (hx : '\n' ∉ x) :
    splitLines (x ++ t) =
      (x ++ (splitLines t).headI) :: (splitLines t).tail := by
  induction x with
  | nil =>
    simp only [List.nil_append]
    rcases h : splitLines t with _ | ⟨l, ls⟩
    · exact absurd h (splitLines_ne_nil t)
    · simp [h]
  | cons c cs ih =>
    have hc : ¬(c = '\n') := fun h => hx (by simp [h])
    have hcs : '\n' ∉ cs := fun h => hx (List.mem_cons_of_mem c h)
    simp only [List.cons_append, splitLines, List.append_eq]
    rw [ih hcs]
    simp [hc]

theorem splitLines_joinLines (xs : List Str) (hne : xs ≠ [])
    (hnl : ∀ l ∈ xs, '\n' ∉ l) : splitLines (joinLines xs) = xs := by
  induction xs with
  | nil => exact absurd rfl hne
  | cons x xs ih =>
    cases xs with
    | nil =>
      have hx : '\n' ∉ x := hnl x (List.mem_cons_self x [])
      have h := splitLines_append_no_newline x [] hx
      simpa [joinLines, splitLines] using h
    | cons y ys =>
      have hx : '\n' ∉ x := hnl x (List.mem_cons_self x _)
      have hrest : ∀ l ∈ y :: ys, '\n' ∉ l := fun l hl =>
        hnl l (List.mem_cons_of_mem x hl)
      have ihr : splitLines (joinLines (y :: ys)) = y :: ys :=
        ih (by simp) hrest
      have hj : joinLines (x :: y :: ys) = x ++ '\n' :: joinLines (y :: ys) := by
        simp [joinLines]
      rw [hj, splitLines_append_no_newline x _ hx]
      simp [splitLines, ihr]

theorem trimChars_sublist (l : Str) : List.Sublist (trimChars l) l :=
  (( List.rdropWhile_prefix isWS (l.dropWhile isWS)).sublist).trans
    (List.dropWhile_sublist _)

theorem trimChars_no_newline {l : Str} (h : '\n' ∉ l) : '\n' ∉ trimChars l :=
  fun hc => h ((trimChars_sublist l).mem hc)

/-- After the front strip, a further front strip does nothing: the head of
the remaining list (if any) fails `isWS`, and back-stripping keeps it. -/
theorem dropWhile_rdropWhile_dropWhile (l : Str) :
    (( l.dropWhile isWS).rdropWhile isWS).dropWhile isWS
      = (l.dropWhile isWS).rdropWhile isWS := by
  rw [List.dropWhile_eq_self_iff]
  intro hl
  obtain ⟨t, ht⟩ := List.rdropWhile_prefix isWS (l.dropWhile isWS)
  -- the head survives the back strip, so it still fails `isWS`
  have hm : 0 < (l.dropWhile isWS).length := by
    rw [← ht, List.length_append]
    omega
  have hget : ((l.dropWhile isWS).rdropWhile isWS).get ⟨0, hl⟩
      = (l.dropWhile isWS).get ⟨0, hm⟩ := by
    simp only [List.get_eq_getElem]
    exact List.IsPrefix.getElem ⟨t, ht⟩ hl
  rw [hget]
  exact List.dropWhile_get_zero_not isWS l hm

/-- Stripping is idempotent. -/
theorem trimChars_idem (l : Str) : trimChars (trimChars l) = trimChars l := by
  unfold trimChars
  rw [dropWhile_rdropWhile_dropWhile, List.rdropWhile_idempotent]

theorem joinLines_ne_nil {xs : List Str} (hne : xs ≠ [])
    (hhead : ∀ l ∈ xs, l ≠ []) : joinLines xs ≠ [] := by
  cases xs with
  | nil => exact absurd rfl hne
  | cons x xs =>
    cases xs with
    | nil =>
      simpa [joinLines] using hhead x (List.mem_cons_self x [])
    | cons y ys =>
      have hx : x ≠ [] := hhead x (List.mem_cons_self x _)
      simp only [joinLines]
      intro h
      rcases List.append_eq_nil.mp h with ⟨hx', _⟩
      exact hx hx'

/-- **C5.** For every task-list text block, task normalization (split on
newline, trim each line, drop empty lines; empty input yields the empty
list) is idempotent: joining the normalized list of strings with newlines
and normalizing again yields the same list. -/
theorem validate_tasks_idempotent (t : Str) :
    validate_tasks (joinLines (validate_tasks t)) = validate_tasks t := by
  rcases hN : validate_tasks t with _ | ⟨x, xs⟩
  · simp [validate_tasks, joinLines]
  · -- every element of the normalized list is nonempty, trim-fixed and
    -- newline-free
    have hmem : ∀ l ∈ validate_tasks t,
        l ≠ [] ∧ trimChars l = l ∧ '\n' ∉ l := by
      intro l hl
      unfold validate_tasks at hl
      split at hl
      · exact absurd hl (by simp)
      · have hl' := List.mem_filter.mp hl
        obtain ⟨y, hy, hly⟩ := List.mem_map.mp hl'.1
        refine ⟨by simpa using hl'.2, ?_, ?_⟩
        · rw [← hly, trimChars_idem]
        · rw [← hly]
          exact trimChars_no_newline (mem_splitLines_no_newline t y hy)
    rw [hN] at hmem
    have hne : (x :: xs : List Str) ≠ [] := by simp
    have hnn : ∀ l ∈ x :: xs, l ≠ [] := fun l hl => (hmem l hl).1
    have hnl : ∀ l ∈ x :: xs, '\n' ∉ l := fun l hl => (hmem l hl).2.2
    have hjoin : joinLines (x :: xs) ≠ [] := joinLines_ne_nil hne hnn
    unfold validate_tasks
    rw [if_neg hjoin, splitLines_joinLines _ hne hnl]
    have hmapfix : (x :: xs).map trimChars = x :: xs :=
      List.map_congr_left (fun l hl => (hmem l hl).2.1) |>.trans (List.map_id _)
    rw [hmapfix]
    exact List.filter_eq_self.mpr (fun l hl => by simpa using hnn l hl)

/-! ### Numeric parsing primitives (Python `int()` / `float()` / `str.split()`) -/

/-- Value of a run of decimal digits. -/
def digitsToNat (ds : Str) : Nat :=
  ds.foldl (fun a c => 10 * a + (c.toNat - '0'.toNat)) 0

/-- The first whitespace-delimited token of a string: `s.split()[0]`,
returning `none` where Python raises `IndexError` (no token at all). -/
def firstTok (l : Str) : Option Str :=
  match l.dropWhile isWS with
  | [] => none
  | c :: cs => some ((c :: cs).takeWhile (fun d => !(isWS d)))

/-- Python `int(s)` on a whitespace-free token: an optional sign followed by
a non-empty run of decimal digits; anything else raises `ValueError`
(modelled as `none`). -/
def parseIntLit (l : Str) : Option Int :=
  match l with
  | '+' :: ds =>
    if ds ≠ [] ∧ ds.all (·.isDigit) then some (digitsToNat ds) else none
  | '-' :: ds =>
    if ds ≠ [] ∧ ds.all (·.isDigit) then some (-(digitsToNat ds : Int)) else none
  | ds =>
    if ds ≠ [] ∧ ds.all (·.isDigit) then some (digitsToNat ds) else none

/-- Exponent part of a float literal (what follows `e`/`E`). -/
def parseExpPart (mant : ℚ) (l : Str) : Option ℚ :=
  let sd : Bool × Str :=
    match l with
    | '+' :: r => (false, r)
    | '-' :: r => (true, r)
    | r => (false, r)
  if sd.2 ≠ [] ∧ sd.2.all (·.isDigit) then
    some (if sd.1 then mant / 10 ^ digitsToNat sd.2 else mant * 10 ^ digitsToNat sd.2)
  else none

/-- Unsigned decimal float literal: digits, optional fraction, optional
exponent (`57`, `57.`, `.5`, `5.25e2`, ...). -/
def parseUnsignedFloat (l : Str) : Option ℚ :=
  let ip := l.takeWhile (·.isDigit)
  match l.dropWhile (·.isDigit) with
  | [] => if ip = [] then none else some (digitsToNat ip)
  | '.' :: rest2 =>
    let fp := rest2.takeWhile (·.isDigit)
    if ip = [] ∧ fp = [] then none
    else
      let mant : ℚ := (digitsToNat ip : ℚ) + (digitsToNat fp : ℚ) / 10 ^ fp.length
      match rest2.dropWhile (·.isDigit) with
      | [] => some mant
      | 'e' :: r => parseExpPart mant r
      | 'E' :: r => parseExpPart mant r
      | _ => none
  | 'e' :: r => if ip = [] then none else parseExpPart (digitsToNat ip) r
  | 'E' :: r => if ip = [] then none else parseExpPart (digitsToNat ip) r
  | _ => none

/-- Python `float(s)` on the decimal literal forms: strips whitespace,
optional sign, then an unsigned float literal.  (`inf`/`nan` are not
modelled; see the header.) -/
def parseFloat (l : Str) : Option ℚ :=
  match trimChars l with
  | '+' :: r => parseUnsignedFloat r
  | '-' :: r => (parseUnsignedFloat r).map (fun q => -q)
  | r => parseUnsignedFloat r

/-! ### `InputValidator.validate_peer_ratings`
(src/core/validators.py lines 46-59) -/

/-- `InputValidator.validate_peer_ratings`: for each `(peer, rating)` entry,
`int(rating.split()[0])`; keep the entry iff that parse succeeds with a
value in `[1, 4]`; `ValueError`/`IndexError` drop the entry. -/
def validate_peer_ratings (ratings : List (String × Str)) : List (String × Int) :=
  ratings.filterMap (fun pr =>
    match (firstTok pr.2).bind parseIntLit with
    | some r => if 1 ≤ r ∧ r ≤ 4 then some (pr.1, r) else none
    | none => none)

/-- **C4.** For every mapping from peer name to rating string, an entry is
kept in the validated result if and only if its rating string begins with an
integer in `[1, 4]` — read, as the code does, as: the first
whitespace-delimited token of the rating string is an integer literal whose
value lies in `[1, 4]` — in which case the entry maps the peer to that
integer; any other entry is dropped, so `"3 (Satisfactory)"` yields rating 3
and `"5 (Invalid)"` yields no entry. -/
theorem validate_peer_ratings_spec :
    (∀ (ratings : List (String × Str)) (p : String) (r : Int),
        (p, r) ∈ validate_peer_ratings ratings ↔
          ∃ s, (p, s) ∈ ratings ∧ (firstTok s).bind parseIntLit = some r ∧
            1 ≤ r ∧ r ≤ 4)
    ∧ validate_peer_ratings
        [("Alice", "3 (Satisfactory)".toList), ("Bob", "5 (Invalid)".toList)]
      = [("Alice", 3)] := by
  constructor
  · intro ratings p r
    unfold validate_peer_ratings
    rw [List.mem_filterMap]
    constructor
    · rintro ⟨⟨q, s⟩, hmem, hf⟩
      dsimp only at hf
      rcases hparse : (firstTok s).bind parseIntLit with _ | r'
      · rw [hparse] at hf
        dsimp only at hf
        exact absurd hf (by simp)
      · rw [hparse] at hf
        dsimp only at hf
        by_cases hrange : 1 ≤ r' ∧ r' ≤ 4
        · rw [if_pos hrange] at hf
          have hq : q = p := congrArg Prod.fst (Option.some.inj hf)
          have hr : r' = r := congrArg Prod.snd (Option.some.inj hf)
          subst hq; subst hr
          exact ⟨s, hmem, hparse, hrange⟩
        · rw [if_neg hrange] at hf; exact absurd hf (by simp)
    · rintro ⟨s, hmem, hparse, h1, h4⟩
      exact ⟨(p, s), hmem, by simp [hparse, h1, h4]⟩
  · decide

/-! ### `InputValidator.validate_projects`
(src/core/validators.py lines 23-44) -/

/-- A parsed project entry `{name, completion}`. -/
structure Project where
  name : Str
  completion : ℚ
deriving DecidableEq, Repr

/-- `line.rsplit(',', 1)` followed by unpacking into two variables:
`none` where the unpacking raises `ValueError` (no comma in the line),
otherwise the text before and after the *last* comma. -/
def rsplitComma (l : Str) : Option (Str × Str) :=
  match l.reverse.span (fun c => !(c = ',')) with
  | (_, []) => none
  | (suf, _ :: rest) => some (rest.reverse, suf.reverse)

/-- One iteration of the `for` loop of `validate_projects`: the
`if line.strip():` guard, then the `try:` block — rsplit at the last comma,
`float(...)` the stripped suffix, per-line `ValueError`s skip the line, and
an out-of-range completion falls through without appending. -/
def projectLine (line : Str) : Option Project :=
  if trimChars line = [] then none
  else
    match rsplitComma line with
    | none => none
    | some (name, suffix) =>
      match parseFloat (trimChars suffix) with
      | none => none
      | some completion =>
        if 0 ≤ completion ∧ completion ≤ 100 then
          some ⟨trimChars name, completion⟩
        else none

/-- `InputValidator.validate_projects`: split the text on newlines and run
the loop body on each line, collecting the accepted lines in order. -/
def validate_projects (projects : Str) : List Project :=
  if projects = [] then []
  else (splitLines projects).filterMap projectLine

theorem rsplitComma_eq_none_of_no_comma {l : Str} (h : ',' ∉ l) :
    rsplitComma l = none := by
  unfold rsplitComma
  rw [List.span_eq_take_drop]
  have : l.reverse.dropWhile (fun c => !(c = ',')) = [] := by
    rw [List.dropWhile_eq_nil_iff]
    intro x hx
    simp only [Bool.not_eq_true']
    rcases eq_or_ne x ',' with rfl | hne
    · exact absurd (List.mem_reverse.mp hx) h
    · simpa using hne
  rw [this]

theorem rsplitComma_comma_mem {l : Str} {ns : Str × Str}
    (h : rsplitComma l = some ns) : ',' ∈ l := by
  unfold rsplitComma at h
  rw [List.span_eq_take_drop] at h
  rcases hd : l.reverse.dropWhile (fun c => !(c = ',')) with _ | ⟨c, rest⟩
  · rw [hd] at h; exact absurd h (by simp)
  · have hc : ¬(!(c = ',')) = true := by
      have := List.head_dropWhile_not (fun c => !(c = ',')) l.reverse
        (by rw [hd]; simp)
      simpa [hd] using this
    have hceq : c = ',' := by simpa using hc
    have : c ∈ l.reverse := (List.dropWhile_sublist _).mem (by rw [hd]; simp)
    rw [hceq] at this
    exact List.mem_reverse.mp this

/-- **C3 counterexample.** The claim requires a line to contain *exactly one*
separating comma to be accepted; the code splits at the *last* comma, so the
two-comma line `"A, B, 57"` is accepted (with name `"A, B"`). -/
theorem validate_projects_multi_comma_accepted :
    validate_projects ("A, B, 57".toList)
      = [⟨"A, B".toList, 57⟩] := by decide

/-- **C3 (amended).** For every multi-line project-text input, each non-empty
line must contain *at least one* comma — the line is split at its last comma
— with a numeric suffix in `[0, 100]` to be accepted; a line of the form
`"Name, 57"` parses to `{name: "Name", completion: 57.0}`, while a line
whose numeric suffix is out of range (`"Name, 150"`) or non-numeric
(`"Name, abc"`) is skipped without aborting the batch, and all remaining
valid lines are still parsed in order. -/
theorem validate_projects_amended :
    (∀ line : Str, ',' ∉ line → projectLine line = none)
    ∧ (∀ (line : Str) (p : Project), projectLine line = some p →
        ',' ∈ line ∧ 0 ≤ p.completion ∧ p.completion ≤ 100)
    ∧ validate_projects ("Name, 57".toList) = [⟨"Name".toList, 57⟩]
    ∧ validate_projects ("Name, 57\nName, 150\nName, abc\nOther, 3".toList)
        = [⟨"Name".toList, 57⟩, ⟨"Other".toList, 3⟩] := by
  refine ⟨?_, ?_, by decide, by decide⟩
  · intro line h
    unfold projectLine
    rw [rsplitComma_eq_none_of_no_comma h]
    split <;> rfl
  · intro line p hp
    unfold projectLine at hp
    split at hp
    · exact absurd hp (by simp)
    · rcases hr : rsplitComma line with _ | ⟨name, suffix⟩
      · rw [hr] at hp
        dsimp only at hp
        exact absurd hp (by simp)
      · rw [hr] at hp
        dsimp only at hp
        refine ⟨rsplitComma_comma_mem hr, ?_⟩
        rcases hf : parseFloat (trimChars suffix) with _ | c
        · rw [hf] at hp
          dsimp only at hp
          exact absurd hp (by simp)
        · rw [hf] at hp
          dsimp only at hp
          by_cases hrange : 0 ≤ c ∧ c ≤ 100
          · rw [if_pos hrange] at hp
            have hpc : p = ⟨trimChars name, c⟩ := (Option.some.inj hp).symm
            rw [hpc]
            exact hrange
          · rw [if_neg hrange] at hp; exact absurd hp (by simp)

/-! ### Python rounding, and the metrics of `AIHRAnalyzer`
(src/core/ai_hr_analyzer.py) -/

/-- Round half to even to an integer — Python's `round` mode. -/
def rne (x : ℚ) : ℤ :=
  let f := ⌊x⌋
  if x - f < 1 / 2 then f
  else if 1 / 2 < x - f then f + 1
  else if f % 2 = 0 then f else f + 1

/-- Python's `round(x, n)`: round half to even at `n` decimal digits. -/
def roundTo (n : Nat) (x : ℚ) : ℚ :=
  (rne (x * 10 ^ n) : ℚ) / 10 ^ n

/-- The metrics record assembled by `AIHRAnalyzer._calculate_metrics`
(the fields computed from the task counts and the projects list; the
regex-extracted productivity rating is passed through unchanged). -/
structure Metrics where
  task_completion_rate : ℚ
  completed_tasks : Nat
  pending_tasks : Nat
  dropped_tasks : Nat
  total_tasks : Nat
  project_progress : ℚ
  productivity_rating : ℚ
deriving DecidableEq, Repr

/-- `AIHRAnalyzer._calculate_metrics`: task counts are read from the
`Number of ... Tasks` fields, the completion rate is
`completed / total * 100` guarded against division by zero, the project
progress averages the `completion` values, and both are rounded with
`round(_, 1)`. -/
def calculate_metrics (completed pending dropped : Nat)
    (projects : List Project) (rating : ℚ) : Metrics :=
  let total := completed + pending + dropped
  let completion_rate : ℚ :=
    if total > 0 then (completed : ℚ) / (total : ℚ) * 100 else 0
  let avg_progress : ℚ :=
    if projects = [] then 0
    else (projects.map (·.completion)).sum / (projects.length : ℚ)
  { task_completion_rate := roundTo 1 completion_rate
    completed_tasks := completed
    pending_tasks := pending
    dropped_tasks := dropped
    total_tasks := total
    project_progress := roundTo 1 avg_progress
    productivity_rating := rating }

/-- **C2 counterexample.** The claim says the task-completion rate is
rounded to 2 decimals; `_calculate_metrics` uses `round(completion_rate, 1)`
— at counts (1, 2, 0) the code yields 33.3, not the claimed 33.33. -/
theorem calculate_metrics_not_two_decimals :
    (calculate_metrics 1 2 0 [] 0).task_completion_rate = 333 / 10
      ∧ roundTo 2 ((1 : ℚ) / (1 + 2 + 0) * 100) = 3333 / 100
      ∧ ((calculate_metrics 1 2 0 [] 0).task_completion_rate
          ≠ roundTo 2 ((1 : ℚ) / (1 + 2 + 0) * 100)) := by
  refine ⟨?_, ?_, ?_⟩ <;>
    norm_num [calculate_metrics, roundTo, rne, Int.floor_eq_iff]

/-- **C2 (amended).** For all non-negative integer task counts
(completed, pending, dropped), the computed task-completion-rate is 0 when
`completed + pending + dropped = 0`, and otherwise equals
`completed / (completed + pending + dropped) * 100` rounded to **1**
decimal. -/
theorem calculate_metrics_completion_rate (completed pending dropped : Nat)
    (projects : List Project) (rating : ℚ) :
    (calculate_metrics completed pending dropped projects rating).task_completion_rate
      = if completed + pending + dropped = 0 then 0
        else roundTo 1 ((completed : ℚ) / ((completed : ℚ) + pending + dropped) * 100) := by
  unfold calculate_metrics
  by_cases h : completed + pending + dropped = 0
  · have hnot : ¬(completed + pending + dropped > 0) := by omega
    rw [if_pos h]
    dsimp only
    rw [if_neg hnot]
    norm_num [roundTo, rne]
  · have hpos : completed + pending + dropped > 0 := Nat.pos_of_ne_zero h
    rw [if_neg h]
    dsimp only
    rw [if_pos hpos]
    push_cast
    rfl

/-! ### `AIHRAnalyzer._calculate_collaboration_score`
(src/core/ai_hr_analyzer.py lines 285-311) -/

/-- A value of the `Peer_Evaluations` mapping as the score loop sees it:
a number, a dict (whose `Rating` key may be absent), a string, or anything
else. -/
inductive PeerVal where
  | num (q : ℚ)
  | dict (rating : Option ℚ)
  | strv (s : Str)
  | other
deriving DecidableEq, Repr

/-- One iteration of the score loop: numbers pass through, dicts use
`Rating` (default 3.0), strings use `float(s.split()[0])` with errors
defaulting to 3.0, anything else scores 3.0. -/
def scoreOf : PeerVal → ℚ
  | .num q => q
  | .dict r => r.getD 3
  | .strv s =>
    match firstTok s with
    | some tok => (parseFloat tok).getD 3
    | none => 3
  | .other => 3

/-- `AIHRAnalyzer._calculate_collaboration_score`: empty (or unparseable,
hence empty) peer evaluations default to 3.0; otherwise the mean of the
per-entry scores, rounded with `round(_, 2)`. -/
def calculate_collaboration_score (evals : List (String × PeerVal)) : ℚ :=
  if evals = [] then 3
  else roundTo 2 ((evals.map (fun e => scoreOf e.2)).sum / (evals.length : ℚ))

/-- The per-entry rating a peer-evaluation value denotes, when it denotes
one: a number, a dict with a `Rating`, or a string whose first token parses
as a float. -/
def ratingOfVal : PeerVal → Option ℚ
  | .num q => some q
  | .dict (some q) => some q
  | .dict none => none
  | .strv s => (firstTok s).bind parseFloat
  | .other => none

theorem scoreOf_of_ratingOfVal {v : PeerVal} {r : ℚ}
    (h : ratingOfVal v = some r) : scoreOf v = r := by
  cases v with
  | num q => exact Option.some.inj h
  | dict rat =>
    cases rat with
    | none => exact absurd h (by simp [ratingOfVal])
    | some q =>
      simp only [ratingOfVal] at h
      simp [scoreOf, Option.some.inj h]
  | strv s =>
    simp only [ratingOfVal] at h
    rcases ht : firstTok s with _ | tok
    · rw [ht] at h; exact absurd h (by simp)
    · rw [ht] at h
      simp only [Option.some_bind] at h
      simp [scoreOf, ht, h]
  | other => exact absurd h (by simp [ratingOfVal])

/-- **C8.** For every report record, the mean peer rating computed from its
peer evaluations defaults to the neutral value 3.0 when no peer evaluations
exist (empty — or unparseable, which `_safe_parse_json` turns into empty —
mapping), and otherwise, when every entry denotes an individual rating,
equals the arithmetic mean of those ratings rounded to 2 decimals. -/
theorem collaboration_score_spec (evals : List (String × PeerVal)) (rs : List ℚ)
    (hne : evals ≠ []) (hrs : evals.map (fun e => ratingOfVal e.2) = rs.map some) :
    calculate_collaboration_score [] = 3
    ∧ calculate_collaboration_score evals = roundTo 2 (rs.sum / (rs.length : ℚ)) := by
  refine ⟨by simp [calculate_collaboration_score], ?_⟩
  have hmap : evals.map (fun e => scoreOf e.2) = rs := by
    have hlen : evals.length = rs.length := by
      have := congrArg List.length hrs
      simpa using this
    apply List.ext_getElem (by simpa using hlen)
    intro i h1 h2
    have := congrArg (fun l => l[i]?) hrs
    simp only [List.getElem?_map] at this
    have hi : i < evals.length := by simpa using h1
    have hi' : i < rs.length := by omega
    rw [List.getElem?_eq_getElem hi, List.getElem?_eq_getElem hi'] at this
    simp only [Option.map_some'] at this
    have hval : ratingOfVal (evals[i].2) = some (rs[i]) := by
      simpa using this
    simpa using scoreOf_of_ratingOfVal hval
  unfold calculate_collaboration_score
  rw [if_neg hne, hmap]
  have hlen : evals.length = rs.length := by
    have := congrArg List.length hmap
    simpa using this
  rw [hlen]

/-- Witness for C8 at a concrete input: two peers rated 4 and `"3 (Sat)"`,
mean 3.5. -/
theorem collaboration_score_spec_witness :
    ([(("A" : String), PeerVal.num 4), ("B", PeerVal.strv ("3 (Sat)".toList))]
        ≠ ([] : List (String × PeerVal)))
    ∧ calculate_collaboration_score [] = 3
    ∧ calculate_collaboration_score
        [(("A" : String), PeerVal.num 4), ("B", PeerVal.strv ("3 (Sat)".toList))]
      = roundTo 2 (([(4 : ℚ), 3].sum) / (([(4 : ℚ), 3].length : ℚ))) := by
  have h := collaboration_score_spec
    [(("A" : String), PeerVal.num 4), ("B", PeerVal.strv ("3 (Sat)".toList))]
    [(4 : ℚ), 3] (by decide) (by decide)
  exact ⟨by decide, h.1, h.2⟩

/-! ### The persistence gateway (src/core/database.py)

The hosted store is modelled as a list of rows; each remote call's outcome
(the lookup query raising, the insert returning data) is an explicit
parameter.  The caller's dict is modelled as an insertion-ordered
association list, and `save_data` returns it so that the in-place mutations
the Python code performs are observable. -/

/-- A column value of a report record. -/
inductive Val where
  | vstr (s : Str)
  | vint (n : Int)
  | vlist (xs : List Str)
  | vprojs (ps : List Project)
  | vpeers (m : List (String × Int))
deriving DecidableEq, Repr

/-- A Python dict with string keys: insertion-ordered association list. -/
abbrev DataMap := List (String × Val)

/-- `d[k]` / `d.get(k)`. -/
def dmGet (d : DataMap) (k : String) : Option Val :=
  match d.find? (fun kv => kv.1 = k) with
  | some kv => some kv.2
  | none => none

/-- `d[k] = v`: overwrite in place, or append a new key. -/
def dmSet (d : DataMap) (k : String) (v : Val) : DataMap :=
  match d with
  | [] => [(k, v)]
  | kv :: rest => if kv.1 = k then (k, v) :: rest else kv :: dmSet rest k v

/-- Minimal JSON string escaping (quote and backslash; the claims never
exercise control characters). -/
def jsonEscape (s : Str) : Str :=
  s.foldr (fun c acc =>
    if c = '\"' ∨ c = '\\' then '\\' :: c :: acc else c :: acc) []

/-- A JSON string literal. -/
def jsonStr (s : Str) : Str := '\"' :: (jsonEscape s ++ ['\"'])

/-- `', '.join` of already-rendered pieces — `json.dumps`'s default item
separator. -/
def joinComma : List Str → Str
  | [] => []
  | [x] => x
  | x :: xs => x ++ ',' :: ' ' :: joinComma xs

/-- Rendering of a float the way `json.dumps` prints it, for the values
arising in this model (integral floats print as `n.0`; other rationals fall
back to a fraction rendering, which the verified claims never exercise). -/
def ratJson (q : ℚ) : Str :=
  if q.den = 1 then (toString q.num).data ++ ['.', '0']
  else (toString q.num).data ++ '/' :: (toString q.den).data

/-- One `{"name": ..., "completion": ...}` project object. -/
def dumpsProj (p : Project) : Str :=
  '\x7b' :: (jsonStr ("name".toList) ++ ':' :: ' ' :: jsonStr p.name
    ++ ',' :: ' ' :: jsonStr ("completion".toList) ++ ':' :: ' '
      :: ratJson p.completion) ++ ['\x7d']

/-- A `{peer: rating}` object. -/
def dumpsPeers (m : List (String × Int)) : Str :=
  '\x7b' :: joinComma (m.map (fun kv =>
    jsonStr kv.1.toList ++ ':' :: ' ' :: (toString kv.2).data)) ++ ['\x7d']

/-- `json.dumps` with the default separators, on the value shapes the report
fields take. -/
def dumps : Val → Str
  | .vstr s => jsonStr s
  | .vint n => (toString n).data
  | .vlist xs => '[' :: (joinComma (xs.map jsonStr) ++ [']'])
  | .vprojs ps => '[' :: (joinComma (ps.map dumpsProj) ++ [']'])
  | .vpeers m => dumpsPeers m

/-- `name.split(" (")[0] if " (" in name else name`: the text before the
first `" ("` (used to strip a `" (team)"` display suffix). -/
def stripTeamChars : Str → Str
  | [] => []
  | ' ' :: '(' :: _ => []
  | c :: cs => c :: stripTeamChars cs

/-- A stored `wpr_data` row: the generated `id` plus the record. -/
structure Row where
  id : Nat
  payload : DataMap
deriving DecidableEq, Repr

/-- The `.eq("Name", n).eq("Week Number", w).eq("Year", y)` filters. -/
def rowMatches (n : Str) (w y : Int) (r : Row) : Bool :=
  (dmGet r.payload "Name" == some (.vstr n))
    && (dmGet r.payload "Week Number" == some (.vint w))
    && (dmGet r.payload "Year" == some (.vint y))

/-- `DatabaseHandler.check_and_handle_duplicates` (src/core/database.py
lines 29-47): query the rows matching the (name, week, year) filters; on
success return `(True, first row's id)` or `(False, None)`; an exception
from the query is caught, logged, and also yields `(False, None)`. -/
def check_and_handle_duplicates (lookupRaises : Bool) (table : List Row)
    (name : Str) (week year : Int) : Bool × Option Nat :=
  if lookupRaises then (false, none)
  else
    match table.find? (rowMatches name week year) with
    | some r => (true, some r.id)
    | none => (false, none)

/-- The ``[t.strip() for t in tasks.split('\n') if t.strip()]`` coercion
used for task fields given as text (same body as `validate_tasks`, repeated
in the source). -/
def splitTasks (s : Str) : List Str :=
  ((splitLines s).map trimChars).filter (· ≠ [])

/-- `data.get('... Tasks', [])` plus the `isinstance` coercion: a missing
field defaults to `[]`, a string is split, a list is kept.  A field of any
other shape would make the later `len()`/`json.dumps` calls raise (the
`except` path), modelled as `none`. -/
def coerceTasks : Option Val → Option (List Str)
  | none => some []
  | some (.vstr s) => some (splitTasks s)
  | some (.vlist xs) => some xs
  | some _ => none

/-- The fields converted to JSON text before the write. -/
def jsonFields : List String :=
  ["Completed Tasks", "Pending Tasks", "Dropped Tasks",
   "Productivity Suggestions", "Projects", "Peer_Evaluations"]

/-- One step of the `for field in json_fields:` loop. -/
def encStep (d : DataMap) (f : String) : DataMap :=
  match dmGet d f with
  | some v => dmSet d f (.vstr (dumps v))
  | none => d

/-- `for field in json_fields: if field in data: data[field] = json.dumps(...)`. -/
def encodeJsonFields (d : DataMap) : DataMap :=
  jsonFields.foldl encStep d

/-- The task-processing block shared verbatim by `save_data` and
`update_data`: coerce the three task fields to lists, store them back, and
store the three derived counts.  `none` is the `except` path (a task field
of a shape `len()` rejects). -/
def processTaskBlock (data : DataMap) : Option DataMap :=
  match coerceTasks (dmGet data "Completed Tasks"),
        coerceTasks (dmGet data "Pending Tasks"),
        coerceTasks (dmGet data "Dropped Tasks") with
  | some ct, some pt, some dt =>
    let d := dmSet data "Completed Tasks" (.vlist ct)
    let d := dmSet d "Pending Tasks" (.vlist pt)
    let d := dmSet d "Dropped Tasks" (.vlist dt)
    let d := dmSet d "Number of Completed Tasks" (.vint ct.length)
    let d := dmSet d "Number of Pending Tasks" (.vint pt.length)
    let d := dmSet d "Number of Dropped Tasks" (.vint dt.length)
    some d
  | _, _, _ => none

/-- Outcome of the remote insert call: `execute()` returns the row,
returns no data, or raises. -/
inductive InsertOutcome where
  | ok
  | noData
  | raises
deriving DecidableEq, Repr

/-- `DatabaseHandler.save_data` (src/core/database.py lines 49-124),
as a function of the remote-call outcomes, the timestamp, the fresh row id,
the current table, and the caller's dict.  Returns the Python return value,
the new table, and the dict as the caller sees it afterwards (the code
mutates `data` in place).  A missing or non-string `Name`, or a
non-integer `Week Number`/`Year`, lands in the `except` path (returns
`False` with the table unchanged); on `InsertOutcome.noData` the call
reaches `execute()` (the row is stored) but `result.data` is empty, so the
function returns `False`. -/
def save_data (lookupRaises : Bool) (insert : InsertOutcome) (ts : Str)
    (nextId : Nat) (table : List Row) (data : DataMap) :
    Bool × List Row × DataMap :=
  let data :=
    match dmGet data "Name" with
    | some (.vstr n) => dmSet data "Name" (.vstr (stripTeamChars n))
    | _ => data
  match dmGet data "Name", dmGet data "Week Number", dmGet data "Year" with
  | some (.vstr n), some (.vint w), some (.vint y) =>
    if (check_and_handle_duplicates lookupRaises table n w y).1 then
      (false, table, data)
    else
      let data := dmSet data "created_at" (.vstr ts)
      match processTaskBlock data with
      | some d =>
        let d := encodeJsonFields d
        match insert with
        | .ok => (true, table ++ [⟨nextId, d⟩], d)
        | .noData => (false, table ++ [⟨nextId, d⟩], d)
        | .raises => (false, table, d)
      | none => (false, table, data)
  | _, _, _ => (false, table, data)

/-- Merge for the remote `update`: the given columns overwrite the stored
row's columns. -/
def dmMerge (old upd : DataMap) : DataMap :=
  upd.foldl (fun acc kv => dmSet acc kv.1 kv.2) old

/-- `DatabaseHandler.update_data` (src/core/database.py): the same task
processing and JSON encoding as `save_data`, then
`.update(data).eq('id', record_id)`; returns `True` iff some row matched
(`result.data` non-empty). -/
def update_data (updateRaises : Bool) (table : List Row) (data : DataMap)
    (recordId : Nat) : Bool × List Row × DataMap :=
  match processTaskBlock data with
  | none => (false, table, data)
  | some d =>
    let d := encodeJsonFields d
    if updateRaises then (false, table, d)
    else
      (table.any (fun r => r.id = recordId),
       table.map (fun r =>
         if r.id = recordId then ⟨r.id, dmMerge r.payload d⟩ else r),
       d)

/-! Association-list lemmas. -/

@[simp]
theorem dmGet_dmSet_self (d : DataMap) (k : String) (v : Val) :
    dmGet (dmSet d k v) k = some v := by
  induction d with
  | nil => simp [dmGet, dmSet]
  | cons kv rest ih =>
    by_cases h : kv.1 = k
    · simp [dmGet, dmSet, h]
    · simp only [dmSet, if_neg h]
      simp only [dmGet, List.find?] at ih ⊢
      simp [h, ih]

theorem dmGet_dmSet_ne (d : DataMap) (k k' : String) (v : Val)
    (h : k' ≠ k) : dmGet (dmSet d k v) k' = dmGet d k' := by
  induction d with
  | nil => simp [dmGet, dmSet, Ne.symm h]
  | cons kv rest ih =>
    obtain ⟨k₀, v₀⟩ := kv
    by_cases hk : k₀ = k
    · subst hk
      simp only [dmSet, if_pos rfl]
      simp [dmGet, List.find?, Ne.symm h]
    · simp only [dmSet, if_neg hk]
      simp only [dmGet, List.find?] at ih ⊢
      by_cases hk' : k₀ = k'
      · simp [hk']
      · simp [hk', ih]

theorem dmGet_encStep_ne (d : DataMap) (f k : String) (h : k ≠ f) :
    dmGet (encStep d f) k = dmGet d k := by
  unfold encStep
  rcases dmGet d f with _ | v
  · rfl
  · exact dmGet_dmSet_ne d f k _ h

theorem dmGet_encStep_self (d : DataMap) (f : String) :
    dmGet (encStep d f) f = (dmGet d f).map (fun v => .vstr (dumps v)) := by
  unfold encStep
  rcases h : dmGet d f with _ | v
  · simp [h]
  · simp [dmGet_dmSet_self]

theorem dmGet_encFold_not_mem (fields : List String) (d : DataMap)
    (k : String) (hk : k ∉ fields) :
    dmGet (fields.foldl encStep d) k = dmGet d k := by
  induction fields generalizing d with
  | nil => rfl
  | cons f fs ih =>
    have hne : k ≠ f := fun h => hk (h ▸ List.mem_cons_self f fs)
    have hks : k ∉ fs := fun h => hk (List.mem_cons_of_mem f h)
    simp only [List.foldl_cons]
    rw [ih _ hks, dmGet_encStep_ne d f k hne]

theorem dmGet_encFold_mem (fields : List String) (d : DataMap)
    (k : String) (hk : k ∈ fields) (hnd : fields.Nodup) :
    dmGet (fields.foldl encStep d) k
      = (dmGet d k).map (fun v => .vstr (dumps v)) := by
  induction fields generalizing d with
  | nil => exact absurd hk (List.not_mem_nil k)
  | cons f fs ih =>
    simp only [List.foldl_cons]
    rcases List.mem_cons.mp hk with rfl | hmem
    · have hnot : k ∉ fs := (List.nodup_cons.mp hnd).1
      rw [dmGet_encFold_not_mem fs _ k hnot, dmGet_encStep_self]
    · have hne : k ≠ f := by
        rintro rfl
        exact (List.nodup_cons.mp hnd).1 hmem
      rw [ih (encStep d f) hmem (List.nodup_cons.mp hnd).2,
        dmGet_encStep_ne d f k hne]

/-! Evaluation lemmas for `save_data`. -/

theorem check_dup_true {tbl : List Row} {n : Str} {w y : Int}
    (h : ∃ r ∈ tbl, rowMatches n w y r) :
    (check_and_handle_duplicates false tbl n w y).1 = true := by
  unfold check_and_handle_duplicates
  obtain ⟨r, hr, hp⟩ := h
  have hs : (tbl.find? (rowMatches n w y)).isSome :=
    List.find?_isSome.mpr ⟨r, hr, hp⟩
  rcases hf : tbl.find? (rowMatches n w y) with _ | r₀
  · rw [hf] at hs; simp at hs
  · simp [hf]

/-- With the `Name`/`Week Number`/`Year` fields present and the duplicate
check reporting a duplicate, `save_data` returns `False` with the table
unchanged and the dict's `Name` rewritten. -/
theorem save_data_eval_dup (lr : Bool) (io : InsertOutcome) (ts : Str)
    (nid : Nat) (tbl : List Row) (d : DataMap) (n : Str) (w y : Int)
    (hname : dmGet d "Name" = some (.vstr n))
    (hweek : dmGet d "Week Number" = some (.vint w))
    (hyear : dmGet d "Year" = some (.vint y))
    (hdup : (check_and_handle_duplicates lr tbl (stripTeamChars n) w y).1 = true) :
    save_data lr io ts nid tbl d
      = (false, tbl, dmSet d "Name" (.vstr (stripTeamChars n))) := by
  have e1 : dmGet (dmSet d "Name" (.vstr (stripTeamChars n))) "Name"
      = some (.vstr (stripTeamChars n)) := dmGet_dmSet_self ..
  have e2 : dmGet (dmSet d "Name" (.vstr (stripTeamChars n))) "Week Number"
      = some (.vint w) := by
    rw [dmGet_dmSet_ne _ _ _ _ (by decide), hweek]
  have e3 : dmGet (dmSet d "Name" (.vstr (stripTeamChars n))) "Year"
      = some (.vint y) := by
    rw [dmGet_dmSet_ne _ _ _ _ (by decide), hyear]
  unfold save_data
  rw [hname]
  dsimp only
  rw [e1, e2, e3]
  dsimp only
  rw [hdup, if_pos rfl]

/-- With the identity fields present, the task fields coercible, and no
duplicate reported, `save_data` runs the whole insert path; the final dict
is characterized by its fields. -/
theorem save_data_eval_insert (lr : Bool) (io : InsertOutcome) (ts : Str)
    (nid : Nat) (tbl : List Row) (d : DataMap) (n : Str) (w y : Int)
    (ct pt dt : List Str)
    (hname : dmGet d "Name" = some (.vstr n))
    (hweek : dmGet d "Week Number" = some (.vint w))
    (hyear : dmGet d "Year" = some (.vint y))
    (hct : coerceTasks (dmGet d "Completed Tasks") = some ct)
    (hpt : coerceTasks (dmGet d "Pending Tasks") = some pt)
    (hdt : coerceTasks (dmGet d "Dropped Tasks") = some dt)
    (hnodup : (check_and_handle_duplicates lr tbl (stripTeamChars n) w y).1 = false) :
    ∃ dfin,
      save_data lr io ts nid tbl d
        = (match io with
           | .ok => (true, tbl ++ [⟨nid, dfin⟩], dfin)
           | .noData => (false, tbl ++ [⟨nid, dfin⟩], dfin)
           | .raises => (false, tbl, dfin))
      ∧ dmGet dfin "Name" = some (.vstr (stripTeamChars n))
      ∧ dmGet dfin "Week Number" = some (.vint w)
      ∧ dmGet dfin "Year" = some (.vint y)
      ∧ dmGet dfin "created_at" = some (.vstr ts)
      ∧ dmGet dfin "Number of Completed Tasks" = some (.vint ct.length)
      ∧ dmGet dfin "Number of Pending Tasks" = some (.vint pt.length)
      ∧ dmGet dfin "Number of Dropped Tasks" = some (.vint dt.length)
      ∧ dmGet dfin "Completed Tasks" = some (.vstr (dumps (.vlist ct)))
      ∧ dmGet dfin "Pending Tasks" = some (.vstr (dumps (.vlist pt)))
      ∧ dmGet dfin "Dropped Tasks" = some (.vstr (dumps (.vlist dt)))
      ∧ (∀ k, (k = "Productivity Suggestions" ∨ k = "Projects"
            ∨ k = "Peer_Evaluations") →
          dmGet dfin k = (dmGet d k).map (fun v => .vstr (dumps v))) := by
  classical
  set d1 := dmSet d "Name" (.vstr (stripTeamChars n)) with hd1
  have e1 : dmGet d1 "Name" = some (.vstr (stripTeamChars n)) :=
    dmGet_dmSet_self ..
  have hsame1 : ∀ k, k ≠ "Name" → dmGet d1 k = dmGet d k := fun k hk =>
    dmGet_dmSet_ne d "Name" k _ hk
  have e2 : dmGet d1 "Week Number" = some (.vint w) := by
    rw [hsame1 _ (by decide), hweek]
  have e3 : dmGet d1 "Year" = some (.vint y) := by
    rw [hsame1 _ (by decide), hyear]
  set d2 := dmSet d1 "created_at" (.vstr ts) with hd2
  have hsame2 : ∀ k, k ≠ "created_at" → dmGet d2 k = dmGet d1 k := fun k hk =>
    dmGet_dmSet_ne d1 "created_at" k _ hk
  have f1 : coerceTasks (dmGet d2 "Completed Tasks") = some ct := by
    rw [hsame2 _ (by decide), hsame1 _ (by decide)]; exact hct
  have f2 : coerceTasks (dmGet d2 "Pending Tasks") = some pt := by
    rw [hsame2 _ (by decide), hsame1 _ (by decide)]; exact hpt
  have f3 : coerceTasks (dmGet d2 "Dropped Tasks") = some dt := by
    rw [hsame2 _ (by decide), hsame1 _ (by decide)]; exact hdt
  set d3 :=
    dmSet (dmSet (dmSet (dmSet (dmSet (dmSet d2
      "Completed Tasks" (.vlist ct))
      "Pending Tasks" (.vlist pt))
      "Dropped Tasks" (.vlist dt))
      "Number of Completed Tasks" (.vint ct.length))
      "Number of Pending Tasks" (.vint pt.length))
      "Number of Dropped Tasks" (.vint dt.length) with hd3
  have hptb : processTaskBlock d2 = some d3 := by
    unfold processTaskBlock
    rw [f1, f2, f3]
  have g1 : dmGet d3 "Completed Tasks" = some (.vlist ct) := by
    rw [hd3]
    rw [dmGet_dmSet_ne _ _ _ _ (by decide), dmGet_dmSet_ne _ _ _ _ (by decide),
      dmGet_dmSet_ne _ _ _ _ (by decide), dmGet_dmSet_ne _ _ _ _ (by decide),
      dmGet_dmSet_ne _ _ _ _ (by decide)]
    exact dmGet_dmSet_self ..
  have g2 : dmGet d3 "Pending Tasks" = some (.vlist pt) := by
    rw [hd3]
    rw [dmGet_dmSet_ne _ _ _ _ (by decide), dmGet_dmSet_ne _ _ _ _ (by decide),
      dmGet_dmSet_ne _ _ _ _ (by decide), dmGet_dmSet_ne _ _ _ _ (by decide),
      dmGet_dmSet_self]
  have g3 : dmGet d3 "Dropped Tasks" = some (.vlist dt) := by
    rw [hd3]
    rw [dmGet_dmSet_ne _ _ _ _ (by decide), dmGet_dmSet_ne _ _ _ _ (by decide),
      dmGet_dmSet_ne _ _ _ _ (by decide), dmGet_dmSet_self]
  have g4 : dmGet d3 "Number of Completed Tasks" = some (.vint ct.length) := by
    rw [hd3]
    rw [dmGet_dmSet_ne _ _ _ _ (by decide), dmGet_dmSet_ne _ _ _ _ (by decide),
      dmGet_dmSet_self]
  have g5 : dmGet d3 "Number of Pending Tasks" = some (.vint pt.length) := by
    rw [hd3]
    rw [dmGet_dmSet_ne _ _ _ _ (by decide), dmGet_dmSet_self]
  have g6 : dmGet d3 "Number of Dropped Tasks" = some (.vint dt.length) := by
    rw [hd3]
    rw [dmGet_dmSet_self]
  have hsame3 : ∀ k, k ≠ "Completed Tasks" → k ≠ "Pending Tasks" →
      k ≠ "Dropped Tasks" → k ≠ "Number of Completed Tasks" →
      k ≠ "Number of Pending Tasks" → k ≠ "Number of Dropped Tasks" →
      dmGet d3 k = dmGet d2 k := by
    intro k h1 h2 h3 h4 h5 h6
    rw [hd3]
    rw [dmGet_dmSet_ne _ _ _ _ h6, dmGet_dmSet_ne _ _ _ _ h5,
      dmGet_dmSet_ne _ _ _ _ h4, dmGet_dmSet_ne _ _ _ _ h3,
      dmGet_dmSet_ne _ _ _ _ h2, dmGet_dmSet_ne _ _ _ _ h1]
  refine ⟨encodeJsonFields d3, ?_, ?_, ?_, ?_, ?_, ?_, ?_, ?_, ?_, ?_, ?_, ?_⟩
  · unfold save_data
    rw [hname]
    dsimp only
    rw [e1, e2, e3]
    dsimp only
    rw [hnodup, if_neg Bool.false_ne_true, hptb]
    cases io <;> rfl
  · rw [show encodeJsonFields d3 = jsonFields.foldl encStep d3 from rfl,
      dmGet_encFold_not_mem _ _ _ (by decide),
      hsame3 _ (by decide) (by decide) (by decide) (by decide) (by decide) (by decide),
      hsame2 _ (by decide)]
    exact e1
  · rw [show encodeJsonFields d3 = jsonFields.foldl encStep d3 from rfl,
      dmGet_encFold_not_mem _ _ _ (by decide),
      hsame3 _ (by decide) (by decide) (by decide) (by decide) (by decide) (by decide),
      hsame2 _ (by decide)]
    exact e2
  · rw [show encodeJsonFields d3 = jsonFields.foldl encStep d3 from rfl,
      dmGet_encFold_not_mem _ _ _ (by decide),
      hsame3 _ (by decide) (by decide) (by decide) (by decide) (by decide) (by decide),
      hsame2 _ (by decide)]
    exact e3
  · rw [show encodeJsonFields d3 = jsonFields.foldl encStep d3 from rfl,
      dmGet_encFold_not_mem _ _ _ (by decide),
      hsame3 _ (by decide) (by decide) (by decide) (by decide) (by decide) (by decide)]
    exact dmGet_dmSet_self ..
  · rw [show encodeJsonFields d3 = jsonFields.foldl encStep d3 from rfl,
      dmGet_encFold_not_mem _ _ _ (by decide)]
    exact g4
  · rw [show encodeJsonFields d3 = jsonFields.foldl encStep d3 from rfl,
      dmGet_encFold_not_mem _ _ _ (by decide)]
    exact g5
  · rw [show encodeJsonFields d3 = jsonFields.foldl encStep d3 from rfl,
      dmGet_encFold_not_mem _ _ _ (by decide)]
    exact g6
  · rw [show encodeJsonFields d3 = jsonFields.foldl encStep d3 from rfl,
      dmGet_encFold_mem _ _ _ (by decide) (by decide), g1]
    rfl
  · rw [show encodeJsonFields d3 = jsonFields.foldl encStep d3 from rfl,
      dmGet_encFold_mem _ _ _ (by decide) (by decide), g2]
    rfl
  · rw [show encodeJsonFields d3 = jsonFields.foldl encStep d3 from rfl,
      dmGet_encFold_mem _ _ _ (by decide) (by decide), g3]
    rfl
  · intro k hk
    have hmem : k ∈ jsonFields := by
      rcases hk with rfl | rfl | rfl <;> decide
    rw [show encodeJsonFields d3 = jsonFields.foldl encStep d3 from rfl,
      dmGet_encFold_mem _ _ _ hmem (by decide)]
    have : dmGet d3 k = dmGet d k := by
      rcases hk with rfl | rfl | rfl <;>
        rw [hsame3 _ (by decide) (by decide) (by decide) (by decide)
              (by decide) (by decide),
            hsame2 _ (by decide), hsame1 _ (by decide)]
    rw [this]

/-- `save_data` either leaves the table unchanged or appends one fresh row;
it never rewrites an existing row. -/
theorem save_data_table_shape (lr : Bool) (io : InsertOutcome) (ts : Str)
    (nid : Nat) (tbl : List Row) (d : DataMap) :
    (save_data lr io ts nid tbl d).2.1 = tbl ∨
      ∃ row, (save_data lr io ts nid tbl d).2.1 = tbl ++ [row] := by
  unfold save_data
  dsimp only
  repeat' split
  all_goals first
    | exact Or.inl rfl
    | exact Or.inr ⟨_, rfl⟩

/-- `update_data` touches only the row with the given id. -/
theorem update_data_preserves_other_rows (ur : Bool) (tbl : List Row)
    (d : DataMap) (rid : Nat) (j : Nat) (r : Row)
    (hj : tbl[j]? = some r) (hne : r.id ≠ rid) :
    ((update_data ur tbl d rid).2.1)[j]? = some r := by
  unfold update_data
  rcases h : processTaskBlock d with _ | d'
  · exact hj
  · dsimp only
    split
    · exact hj
    · rw [List.getElem?_map, hj, Option.map_some']
      simp [hne]

/-- **C1.** For every (employee name, week number, year) triple, if a report
row already exists for that triple (and the duplicate lookup succeeds, i.e.
does not raise — see C10 for the exceptional path) then a save of a new
report for the same triple is rejected: `save_data` returns `False`, no new
row is inserted, and the existing row is not overwritten — `save_data`
never rewrites an existing row, so at most one report exists per triple;
only an explicit update-by-id (`update_data` with a record id) modifies an
existing report, leaving all other rows intact. -/
theorem save_data_rejects_duplicates
    (lookupRaises : Bool) (insert : InsertOutcome) (ts : Str) (nextId : Nat)
    (table : List Row) (data : DataMap) (n : Str) (w y : Int)
    (hname : dmGet data "Name" = some (.vstr n))
    (hweek : dmGet data "Week Number" = some (.vint w))
    (hyear : dmGet data "Year" = some (.vint y))
    (hlookup : lookupRaises = false)
    (hdup : ∃ r ∈ table, rowMatches (stripTeamChars n) w y r) :
    ((save_data lookupRaises insert ts nextId table data).1 = false
      ∧ (save_data lookupRaises insert ts nextId table data).2.1 = table)
    ∧ (∀ (lr : Bool) (io : InsertOutcome) (ts' : Str) (nid : Nat)
          (tbl : List Row) (d : DataMap),
        (save_data lr io ts' nid tbl d).2.1 = tbl
          ∨ ∃ row, (save_data lr io ts' nid tbl d).2.1 = tbl ++ [row])
    ∧ (∀ (ur : Bool) (tbl : List Row) (d : DataMap) (rid : Nat) (j : Nat)
          (r : Row), tbl[j]? = some r → r.id ≠ rid →
        ((update_data ur tbl d rid).2.1)[j]? = some r) := by
  subst hlookup
  have heval := save_data_eval_dup false insert ts nextId table data n w y
    hname hweek hyear (check_dup_true hdup)
  exact ⟨by rw [heval]; exact ⟨rfl, rfl⟩,
    save_data_table_shape,
    update_data_preserves_other_rows⟩

/-- Witness for C1: a table already holding Ana's week-10/2024 report
rejects a second submission of the same triple. -/
theorem save_data_rejects_duplicates_witness :
    ((save_data false .ok ("2024-03-08T10:00:00".toList) 2
        [⟨1, [("Name", .vstr ("Ana".toList)), ("Week Number", .vint 10),
              ("Year", .vint 2024)]⟩]
        [("Name", .vstr ("Ana (Frontend Team)".toList)),
         ("Week Number", .vint 10), ("Year", .vint 2024)]).1 = false
      ∧ (save_data false .ok ("2024-03-08T10:00:00".toList) 2
          [⟨1, [("Name", .vstr ("Ana".toList)), ("Week Number", .vint 10),
                ("Year", .vint 2024)]⟩]
          [("Name", .vstr ("Ana (Frontend Team)".toList)),
           ("Week Number", .vint 10), ("Year", .vint 2024)]).2.1
        = [⟨1, [("Name", .vstr ("Ana".toList)), ("Week Number", .vint 10),
                ("Year", .vint 2024)]⟩]) := by
  exact (save_data_rejects_duplicates false .ok _ 2 _ _
    ("Ana (Frontend Team)".toList) 10 2024
    (by decide) (by decide) (by decide) rfl (by decide)).1

/-- **C10.** If the duplicate-lookup query raises an exception,
`check_and_handle_duplicates` catches it and returns `(False, None)`, the
same result as "no duplicate found"; consequently, under a failed
uniqueness query, `save_data` proceeds to insert a new row — even when a
row for the same (name, week, year) triple already exists, the table gains
a second matching row.  The uniqueness guard fails open on lookup errors. -/
theorem check_duplicates_fails_open
    (table : List Row) (data : DataMap) (n : Str) (w y : Int) (ts : Str)
    (nextId : Nat) (ct pt dt : List Str)
    (hname : dmGet data "Name" = some (.vstr n))
    (hweek : dmGet data "Week Number" = some (.vint w))
    (hyear : dmGet data "Year" = some (.vint y))
    (hct : coerceTasks (dmGet data "Completed Tasks") = some ct)
    (hpt : coerceTasks (dmGet data "Pending Tasks") = some pt)
    (hdt : coerceTasks (dmGet data "Dropped Tasks") = some dt)
    (hdup : ∃ r ∈ table, rowMatches (stripTeamChars n) w y r) :
    (∀ (tbl : List Row) (nm : Str) (wk yr : Int),
        check_and_handle_duplicates true tbl nm wk yr = (false, none))
    ∧ (save_data true .ok ts nextId table data).1 = true
    ∧ ∃ row, (save_data true .ok ts nextId table data).2.1 = table ++ [row]
        ∧ rowMatches (stripTeamChars n) w y row = true := by
  obtain ⟨dfin, heq, hN, hW, hY, _⟩ :=
    save_data_eval_insert true .ok ts nextId table data n w y ct pt dt
      hname hweek hyear hct hpt hdt rfl
  refine ⟨fun tbl nm wk yr => rfl, ?_, ?_⟩
  · rw [heq]
  · refine ⟨⟨nextId, dfin⟩, by rw [heq], ?_⟩
    unfold rowMatches
    dsimp only
    rw [hN, hW, hY]
    simp

/-- Witness for C10: the lookup raises, Ana's week-10/2024 report already
exists, and `save_data` still inserts a second row for the same triple. -/
theorem check_duplicates_fails_open_witness :
    (check_and_handle_duplicates true
        [⟨1, [("Name", .vstr ("Ana".toList)), ("Week Number", .vint 10),
              ("Year", .vint 2024)]⟩]
        ("Ana".toList) 10 2024 = (false, none))
    ∧ (save_data true .ok ("2024-03-08T10:00:00".toList) 2
        [⟨1, [("Name", .vstr ("Ana".toList)), ("Week Number", .vint 10),
              ("Year", .vint 2024)]⟩]
        [("Name", .vstr ("Ana".toList)), ("Week Number", .vint 10),
         ("Year", .vint 2024)]).1 = true
    ∧ ∃ row, (save_data true .ok ("2024-03-08T10:00:00".toList) 2
        [⟨1, [("Name", .vstr ("Ana".toList)), ("Week Number", .vint 10),
              ("Year", .vint 2024)]⟩]
        [("Name", .vstr ("Ana".toList)), ("Week Number", .vint 10),
         ("Year", .vint 2024)]).2.1
          = [⟨1, [("Name", .vstr ("Ana".toList)), ("Week Number", .vint 10),
                  ("Year", .vint 2024)]⟩] ++ [row]
        ∧ rowMatches (stripTeamChars ("Ana".toList)) 10 2024 row = true := by
  have h := check_duplicates_fails_open
    [⟨1, [("Name", .vstr ("Ana".toList)), ("Week Number", .vint 10),
          ("Year", .vint 2024)]⟩]
    [("Name", .vstr ("Ana".toList)), ("Week Number", .vint 10),
     ("Year", .vint 2024)]
    ("Ana".toList) 10 2024 ("2024-03-08T10:00:00".toList) 2 [] [] []
    (by decide) (by decide) (by decide) (by decide) (by decide) (by decide)
    (by decide)
  exact ⟨h.1 _ _ _ _, h.2.1, h.2.2⟩

/-- `processTaskBlock` only writes the three task fields and the three
count fields. -/
theorem dmGet_processTaskBlock (data d' : DataMap) (k : String)
    (h : processTaskBlock data = some d')
    (h1 : k ≠ "Completed Tasks") (h2 : k ≠ "Pending Tasks")
    (h3 : k ≠ "Dropped Tasks") (h4 : k ≠ "Number of Completed Tasks")
    (h5 : k ≠ "Number of Pending Tasks") (h6 : k ≠ "Number of Dropped Tasks") :
    dmGet d' k = dmGet data k := by
  unfold processTaskBlock at h
  rcases hc : coerceTasks (dmGet data "Completed Tasks") with _ | ct
  · rw [hc] at h; exact absurd h (by simp)
  rcases hp : coerceTasks (dmGet data "Pending Tasks") with _ | pt
  · rw [hc, hp] at h; exact absurd h (by simp)
  rcases hd : coerceTasks (dmGet data "Dropped Tasks") with _ | dt
  · rw [hc, hp, hd] at h; exact absurd h (by simp)
  rw [hc, hp, hd] at h
  dsimp only at h
  rw [← Option.some.inj h]
  rw [dmGet_dmSet_ne _ _ _ _ h6, dmGet_dmSet_ne _ _ _ _ h5,
    dmGet_dmSet_ne _ _ _ _ h4, dmGet_dmSet_ne _ _ _ _ h3,
    dmGet_dmSet_ne _ _ _ _ h2, dmGet_dmSet_ne _ _ _ _ h1]

/-- On every path of `save_data` — including all the `return False` ones —
once the dict's `Name` is a string, the caller's dict comes back with that
`Name` rewritten to its team-stripped form. -/
theorem save_data_name_mutation (lr : Bool) (io : InsertOutcome) (ts : Str)
    (nid : Nat) (tbl : List Row) (d : DataMap) (n : Str)
    (hname : dmGet d "Name" = some (.vstr n)) :
    dmGet ((save_data lr io ts nid tbl d).2.2) "Name"
      = some (.vstr (stripTeamChars n)) := by
  have h1 : dmGet (dmSet d "Name" (.vstr (stripTeamChars n))) "Name"
      = some (.vstr (stripTeamChars n)) := dmGet_dmSet_self ..
  unfold save_data
  rw [hname]
  dsimp only
  split
  · -- identity fields matched
    split
    · exact h1
    · rename_i heqN _ _ _
      split
      · rename_i d3 hptb
        have henc : dmGet (encodeJsonFields d3) "Name" = dmGet d3 "Name" :=
          dmGet_encFold_not_mem _ _ _ (by decide)
        have hblk : dmGet d3 "Name"
            = dmGet (dmSet (dmSet d "Name" (.vstr (stripTeamChars n)))
                "created_at" (.vstr ts)) "Name" :=
          dmGet_processTaskBlock _ _ _ hptb (by decide) (by decide) (by decide)
            (by decide) (by decide) (by decide)
        have hcr : dmGet (dmSet (dmSet d "Name" (.vstr (stripTeamChars n)))
            "created_at" (.vstr ts)) "Name"
            = some (.vstr (stripTeamChars n)) := by
          rw [dmGet_dmSet_ne _ _ _ _ (by decide)]; exact h1
        cases io <;> (dsimp only; rw [henc, hblk, hcr])
      · rw [dmGet_dmSet_ne _ _ _ _ (by decide)]
        exact h1
  · exact h1

/-- **C9.** `save_data` mutates the caller's mapping in place: the `Name`
value is rewritten with any `" (team)"` suffix removed before the duplicate
check — on every path, so the mutation is visible even when `save_data`
returns `False` — and on the insert path a `created_at` timestamp and the
three derived task-count fields are added and the six structured fields
(the task lists, `Productivity Suggestions`, `Projects`,
`Peer_Evaluations`) are replaced by their JSON-encoded string forms; when
the insert's `execute()` returns no data, `save_data` returns `False` and
all of these mutations are still visible to the caller. -/
theorem save_data_frame_effects :
    (∀ (lr : Bool) (io : InsertOutcome) (ts : Str) (nid : Nat)
        (tbl : List Row) (d : DataMap) (n : Str),
      dmGet d "Name" = some (.vstr n) →
      dmGet ((save_data lr io ts nid tbl d).2.2) "Name"
        = some (.vstr (stripTeamChars n)))
    ∧ (∀ (ts : Str) (nid : Nat) (tbl : List Row) (d : DataMap) (n : Str)
          (w y : Int) (sc sp sd : Str) (sug : List Str) (ps : List Project)
          (pe : List (String × Int)),
      dmGet d "Name" = some (.vstr n) →
      dmGet d "Week Number" = some (.vint w) →
      dmGet d "Year" = some (.vint y) →
      dmGet d "Completed Tasks" = some (.vstr sc) →
      dmGet d "Pending Tasks" = some (.vstr sp) →
      dmGet d "Dropped Tasks" = some (.vstr sd) →
      dmGet d "Productivity Suggestions" = some (.vlist sug) →
      dmGet d "Projects" = some (.vprojs ps) →
      dmGet d "Peer_Evaluations" = some (.vpeers pe) →
      (check_and_handle_duplicates false tbl (stripTeamChars n) w y).1 = false →
      (save_data false .noData ts nid tbl d).1 = false
        ∧ dmGet ((save_data false .noData ts nid tbl d).2.2) "created_at"
            = some (.vstr ts)
        ∧ dmGet ((save_data false .noData ts nid tbl d).2.2)
            "Number of Completed Tasks" = some (.vint (splitTasks sc).length)
        ∧ dmGet ((save_data false .noData ts nid tbl d).2.2)
            "Number of Pending Tasks" = some (.vint (splitTasks sp).length)
        ∧ dmGet ((save_data false .noData ts nid tbl d).2.2)
            "Number of Dropped Tasks" = some (.vint (splitTasks sd).length)
        ∧ dmGet ((save_data false .noData ts nid tbl d).2.2)
            "Completed Tasks" = some (.vstr (dumps (.vlist (splitTasks sc))))
        ∧ dmGet ((save_data false .noData ts nid tbl d).2.2)
            "Pending Tasks" = some (.vstr (dumps (.vlist (splitTasks sp))))
        ∧ dmGet ((save_data false .noData ts nid tbl d).2.2)
            "Dropped Tasks" = some (.vstr (dumps (.vlist (splitTasks sd))))
        ∧ dmGet ((save_data false .noData ts nid tbl d).2.2)
            "Productivity Suggestions" = some (.vstr (dumps (.vlist sug)))
        ∧ dmGet ((save_data false .noData ts nid tbl d).2.2)
            "Projects" = some (.vstr (dumps (.vprojs ps)))
        ∧ dmGet ((save_data false .noData ts nid tbl d).2.2)
            "Peer_Evaluations" = some (.vstr (dumps (.vpeers pe)))) := by
  refine ⟨save_data_name_mutation, ?_⟩
  intro ts nid tbl d n w y sc sp sd sug ps pe hname hweek hyear hsc hsp hsd
    hsug hps hpe hnodup
  obtain ⟨dfin, heq, hN, hW, hY, hcr, hc1, hc2, hc3, hj1, hj2, hj3, hrest⟩ :=
    save_data_eval_insert false .noData ts nid tbl d n w y
      (splitTasks sc) (splitTasks sp) (splitTasks sd)
      hname hweek hyear
      (by rw [hsc]; rfl) (by rw [hsp]; rfl) (by rw [hsd]; rfl) hnodup
  rw [heq]
  dsimp only
  refine ⟨rfl, hcr, hc1, hc2, hc3, hj1, hj2, hj3, ?_, ?_, ?_⟩
  · rw [hrest _ (Or.inl rfl), hsug]; rfl
  · rw [hrest _ (Or.inr (Or.inl rfl)), hps]; rfl
  · rw [hrest _ (Or.inr (Or.inr rfl)), hpe]; rfl

/-- Witness for C9 at a concrete submission (duplicate lookup finds
nothing, the insert returns no data, `save_data` returns `False`, and all
mutations are visible). -/
theorem save_data_frame_effects_witness :
    dmGet ((save_data false .ok ("T".toList) 2
        [⟨1, [("Name", .vstr ("Ana".toList)), ("Week Number", .vint 10),
              ("Year", .vint 2024)]⟩]
        [("Name", .vstr ("Ana (Frontend Team)".toList)),
         ("Week Number", .vint 10), ("Year", .vint 2024)]).2.2) "Name"
      = some (.vstr (stripTeamChars ("Ana (Frontend Team)".toList)))
    ∧ (save_data false .noData ("T".toList) 1 []
        [("Name", .vstr ("Ana (Frontend Team)".toList)),
         ("Week Number", .vint 10), ("Year", .vint 2024),
         ("Completed Tasks", .vstr ("task a\ntask b".toList)),
         ("Pending Tasks", .vstr ("task c".toList)),
         ("Dropped Tasks", .vstr ("".toList)),
         ("Productivity Suggestions", .vlist [("More focus time".toList)]),
         ("Projects", .vprojs [⟨"Site".toList, 57⟩]),
         ("Peer_Evaluations", .vpeers [("Bob", 3)])]).1 = false
    ∧ dmGet ((save_data false .noData ("T".toList) 1 []
        [("Name", .vstr ("Ana (Frontend Team)".toList)),
         ("Week Number", .vint 10), ("Year", .vint 2024),
         ("Completed Tasks", .vstr ("task a\ntask b".toList)),
         ("Pending Tasks", .vstr ("task c".toList)),
         ("Dropped Tasks", .vstr ("".toList)),
         ("Productivity Suggestions", .vlist [("More focus time".toList)]),
         ("Projects", .vprojs [⟨"Site".toList, 57⟩]),
         ("Peer_Evaluations", .vpeers [("Bob", 3)])]).2.2) "Projects"
      = some (.vstr (dumps (.vprojs [⟨"Site".toList, 57⟩])))
    ∧ dmGet ((save_data false .noData ("T".toList) 1 []
        [("Name", .vstr ("Ana (Frontend Team)".toList)),
         ("Week Number", .vint 10), ("Year", .vint 2024),
         ("Completed Tasks", .vstr ("task a\ntask b".toList)),
         ("Pending Tasks", .vstr ("task c".toList)),
         ("Dropped Tasks", .vstr ("".toList)),
         ("Productivity Suggestions", .vlist [("More focus time".toList)]),
         ("Projects", .vprojs [⟨"Site".toList, 57⟩]),
         ("Peer_Evaluations", .vpeers [("Bob", 3)])]).2.2)
        "Number of Completed Tasks"
      = some (.vint (splitTasks ("task a\ntask b".toList)).length) := by
  have hA := save_data_frame_effects.1 false .ok ("T".toList) 2
    [⟨1, [("Name", .vstr ("Ana".toList)), ("Week Number", .vint 10),
          ("Year", .vint 2024)]⟩]
    [("Name", .vstr ("Ana (Frontend Team)".toList)),
     ("Week Number", .vint 10), ("Year", .vint 2024)]
    ("Ana (Frontend Team)".toList) (by decide)
  have hB := save_data_frame_effects.2 ("T".toList) 1 []
    [("Name", .vstr ("Ana (Frontend Team)".toList)),
     ("Week Number", .vint 10), ("Year", .vint 2024),
     ("Completed Tasks", .vstr ("task a\ntask b".toList)),
     ("Pending Tasks", .vstr ("task c".toList)),
     ("Dropped Tasks", .vstr ("".toList)),
     ("Productivity Suggestions", .vlist [("More focus time".toList)]),
     ("Projects", .vprojs [⟨"Site".toList, 57⟩]),
     ("Peer_Evaluations", .vpeers [("Bob", 3)])]
    ("Ana (Frontend Team)".toList) 10 2024
    ("task a\ntask b".toList) ("task c".toList) ("".toList)
    [("More focus time".toList)] [⟨"Site".toList, 57⟩] [("Bob", 3)]
    (by decide) (by decide) (by decide) (by decide) (by decide) (by decide)
    (by decide) (by decide) (by decide) rfl
  exact ⟨hA, hB.1, hB.2.2.2.2.2.2.2.2.2.1, hB.2.2.1⟩

/-! ### The AI retry helper and the submission control flow
(src/core/ai_hr_analyzer.py lines 395-481, src/main.py lines 200-256) -/

/-- Result of `_retry_ai_request`: a response, the exception re-raised at
the last attempt, or Python's implicit `None` when `range(max_retries)` is
empty. -/
inductive RetryResult (α : Type) where
  | ok (r : α)
  | raised
  | noneReturn
deriving DecidableEq, Repr

/-- The loop of `_retry_ai_request`, structurally recursive on the number
of remaining iterations: at attempt `i`, a successful call returns; a
failing call re-raises if `i` is the last attempt (`max_retries - 1`) and
otherwise sleeps `2 ** i` seconds and retries.  `slept` collects the
delays. -/
def retryGo (respond : Nat → Option α) (last : Nat) :
    Nat → Nat → List Nat → RetryResult α × List Nat
  | 0, _, slept => (.noneReturn, slept)
  | remaining + 1, i, slept =>
    match respond i with
    | some r => (.ok r, slept)
    | none =>
      if i = last then (.raised, slept)
      else retryGo respond last remaining (i + 1) (slept ++ [2 ^ i])

/-- `AIHRAnalyzer._retry_ai_request` with its default `max_retries = 3`,
as a function of the outcome `respond i` of the `i`-th API call.  Returns
the result together with the list of backoff delays actually slept. -/
def retryAiRequest (respond : Nat → Option α) (maxRetries : Nat) :
    RetryResult α × List Nat :=
  retryGo respond (maxRetries - 1) maxRetries 0 []

/-- Outcome of `generate_hr_analysis` as the submission handler sees it:
a result dict (whose `analysis_content` may be absent) or an exception. -/
inductive AiOutcome where
  | ok (content : Option Str)
  | exn
deriving DecidableEq

/-- The non-edit submission branch of `WPRApp` (src/main.py lines 200-256):
`save_data` is called (its boolean result is logged, not branched on), the
AI analysis runs inside its own `try/except` (a failure leaves
`ai_analysis = None`), the email send runs inside its own `try/except`,
and the handler then reports success and returns `True`.  Returns
`(overall success, ai_analysis passed to the email, email_sent)`. -/
def handleUserSubmission (saveResult : Bool) (ai : AiOutcome)
    (emailOk : Bool) : Bool × Option Str × Bool :=
  let ai_analysis : Option Str :=
    match ai with
    | .ok c => c
    | .exn => none
  let email_sent := emailOk
  (true, ai_analysis, email_sent)

/-- **C6 counterexample.** When every API call fails, `_retry_ai_request`
with `max_retries = 3` sleeps only 1s and 2s — not the 1s/2s/4s the claim
states — and then re-raises (propagates the failure) instead of returning
an error-string substitute. -/
theorem retry_backoff_counterexample :
    retryAiRequest (fun _ => (none : Option Unit)) 3
        = (RetryResult.raised, [1, 2])
    ∧ (retryAiRequest (fun _ => (none : Option Unit)) 3).2 ≠ [1, 2, 4]
    ∧ (retryAiRequest (fun _ => (none : Option Unit)) 3).1
        ≠ RetryResult.ok () := by
  refine ⟨by decide, by decide, by decide⟩

/-- **C6 (amended).** On transient failure of the AI text-generation call,
the retry helper makes up to 3 attempts with exponential backoff of base 2,
sleeping 1s and then 2s between attempts, and re-raises after the last
failure; the surrounding analysis step catches the failure (the submission
handler's `ai_analysis` is then `None`, so no summary reaches the email),
and the already-persisted submission still reports overall success. -/
theorem retry_and_submission_amended :
    (∀ respond : Nat → Option Unit, (∀ i, respond i = none) →
        retryAiRequest respond 3 = (RetryResult.raised, [1, 2]))
    ∧ (∀ (saveResult : Bool) (emailOk : Bool),
        (handleUserSubmission saveResult .exn emailOk).1 = true
          ∧ (handleUserSubmission saveResult .exn emailOk).2.1 = none) := by
  constructor
  · intro respond hfail
    unfold retryAiRequest
    unfold retryGo
    rw [hfail 0]
    norm_num
    unfold retryGo
    rw [hfail 1]
    norm_num
    unfold retryGo
    rw [hfail 2]
    norm_num
  · intro saveResult emailOk
    exact ⟨rfl, rfl⟩

/-- Witness for C6 at the always-failing request. -/
theorem retry_and_submission_amended_witness :
    retryAiRequest (fun _ => (none : Option Unit)) 3
        = (RetryResult.raised, [1, 2])
    ∧ (handleUserSubmission true .exn true).1 = true := by
  exact ⟨retry_and_submission_amended.1 _ (fun _ => rfl),
    (retry_and_submission_amended.2 true true).1⟩

/-! ### HTML sanitization and the confirmation email
(src/core/ai_hr_analyzer.py lines 511-523, src/core/email_handler.py
lines 126-169) -/

/-- Pattern match at the head of a string. -/
def startsWithChars : Str → Str → Bool
  | [], _ => true
  | _ :: _, [] => false
  | p :: ps, c :: cs => p = c && startsWithChars ps cs

/-- Python's `in` on strings: substring occurrence. -/
def containsSub (pat : Str) : Str → Bool
  | [] => startsWithChars pat []
  | c :: cs => startsWithChars pat (c :: cs) || containsSub pat cs

/-- Python's `str.replace`: a single left-to-right pass replacing
non-overlapping occurrences, continuing after each replacement.  Fuelled
by the input length so that it is structurally recursive (the fuel never
runs out: each step consumes at least one character). -/
def replaceAllFuel (pat repl : Str) : Nat → Str → Str
  | 0, l => l
  | _ + 1, [] => []
  | fuel + 1, c :: cs =>
    if pat ≠ [] ∧ startsWithChars pat (c :: cs) then
      repl ++ replaceAllFuel pat repl fuel ((c :: cs).drop pat.length)
    else c :: replaceAllFuel pat repl fuel cs

/-- `s.replace(pat, repl)`. -/
def replaceAll (pat repl l : Str) : Str :=
  replaceAllFuel pat repl l.length l

/-- `AIHRAnalyzer._sanitize_html_content` (src/core/ai_hr_analyzer.py lines
511-523): escape literal `<script>`/`</script>` and delete literal
`javascript:` / `onerror=` / `onclick=` substrings, one `str.replace` pass
each. -/
def sanitize_html_content (content : Str) : Str :=
  let c1 := replaceAll ("<script>".toList) ("&lt;script&gt;".toList) content
  let c2 := replaceAll ("</script>".toList) ("&lt;/script&gt;".toList) c1
  let c3 := replaceAll ("javascript:".toList) [] c2
  let c4 := replaceAll ("onerror=".toList) [] c3
  replaceAll ("onclick=".toList) [] c4

/-! The chunks of the f-string template of `EmailHandler.format_wpr_email`
(src/core/email_handler.py lines 126-169). -/

def wprEmailHead : String :=
  "\n        <html>\n            <head>\n                <style>\n                    body \x7b font-family: Arial, sans-serif; line-height: 1.6; color: #333; \x7d\n                    .container \x7b max-width: 800px; margin: 0 auto; padding: 20px; \x7d\n                    .header \x7b color: #2E86C1; margin-bottom: 20px; \x7d\n                    .content \x7b margin: 20px 0; \x7d\n                    .footer \x7b margin-top: 30px; color: #666; \x7d\n                </style>\n            </head>\n            <body>\n                <div class=\"container\">\n                    <div class=\"header\">\n                        <h1>Weekly Productivity Report Summary</h1>\n                        <h2>Week "

def wprEmailMid1 : String :=
  "</h2>\n                        <p>Date: "

def wprEmailMid2 : String :=
  "</p>\n                    </div>\n                    \n                    <div class=\"content\">\n                        <p>Dear "

def wprEmailMid3 : String :=
  ",</p>\n                        "

def wprEmailMid4 : String :=
  "\n                    </div>\n        "

def wprEmailFoot : String :=
  "\n                    <div class=\"footer\">\n                        <p>Best regards,<br>IOL Inc.</p>\n                    </div>\n                </div>\n            </body>\n        </html>\n        "

/-- `EmailHandler.format_wpr_email`: the HTML body, with `week_number`,
`current_date`, `name` and `ai_analysis` interpolated verbatim; an optional
pre-rendered HR-analysis section (`_format_hr_analysis_section`) is
appended before the footer when present. -/
def format_wpr_email (name : Str) (week_number : Int) (current_date : Str)
    (ai_analysis : Str) (hr_section : Option Str) : Str :=
  let body := wprEmailHead.toList ++ (toString week_number).data
    ++ wprEmailMid1.toList ++ current_date
    ++ wprEmailMid2.toList ++ name
    ++ wprEmailMid3.toList ++ ai_analysis
    ++ wprEmailMid4.toList
  let body := match hr_section with
    | some s => body ++ s
    | none => body
  body ++ wprEmailFoot.toList

/-- Modelled from the spec: the notifier glue `send_wpr_notification` that
composes the confirmation-email body is called from `src/main.py` but is
missing from the sources; per the spec's `send_confirmation` (§4.4), when a
summary is present it is embedded via `format_wpr_email` with the minimal
XSS guard — the sources' `_sanitize_html_content` — applied to it. -/
def send_confirmation_body (name : Str) (week_number : Int)
    (current_date : Str) (summary : Str) : Str :=
  format_wpr_email name week_number current_date
    (sanitize_html_content summary) none

set_option maxRecDepth 40000 in
/-- **C7.** The claim says the email body produced from any input summary
contains no `<script>` / `javascript:` / `onerror=` / `onclick=` fragments
originating from the summary.  The single-pass `str.replace` guard is
bypassed by splicing: `"jjavascript:avascript:"` sanitizes to
`"javascript:"`, which lands verbatim in the composed body, and deleting
`javascript:` can even manufacture a fresh `<script>`. -/
theorem sanitize_html_bypassed :
    sanitize_html_content ("jjavascript:avascript:".toList)
        = ("javascript:".toList)
    ∧ containsSub ("javascript:".toList)
        (send_confirmation_body ("Ana".toList) 10 ("March 8, 2024".toList)
          ("jjavascript:avascript:".toList)) = true
    ∧ containsSub ("<script>".toList)
        (sanitize_html_content ("<scrjavascript:ipt>alert(1)</scrjavascript:ipt>".toList))
        = true := by
  refine ⟨by decide, by decide, by decide⟩

end WPR
